import Mathlib

/-!
Verification development for the EmailFileBackup-Cron attachment pipeline.

The definitions below are a shallow embedding of the Python sources
`src/mail_processor.py` and `src/database.py`.  Python strings are
modelled as `List Char` (a Python `str` is a sequence of Unicode code
points), bytes as `Nat` values below 256, timestamps as `Int` seconds,
and every external effect (WebDAV store contents, HTTP outcomes, the
database log) is made explicit: the remote store is an oracle
`List Char → Bool` (its network-error-means-absent policy folded in, as
in `webdav_file_exists`), HTTP PUT outcomes are booleans carried by the
inputs, and all observable actions are collected in an event trace.
-/

namespace EmailBackup

/-- The apostrophe character, written via its code point. -/
def sq : Char := Char.ofNat 39

/-- `hasPair x l` is true when `l` contains two adjacent occurrences of
`x`; for `x = sq` this is Python's `"''" in s` test from
`decode_email_header` (mail_processor.py line 181). -/
def hasPair (x : Char) : List Char → Bool
  | c :: d :: rest => (c == x && d == x) || hasPair x (d :: rest)
  | _ => false

/-- `splitLastSep x l` is the last element of Python's
`l.split(xx)` where `xx` is the two-character separator `[x, x]`:
the scanner walks left to right, restarting after each non-overlapping
separator occurrence (mail_processor.py line 183,
`filename_str.split(separator)[-1]`). -/
def splitLastSep (x : Char) : List Char → List Char
  | c :: d :: rest =>
    if c == x && d == x then splitLastSep x rest
    else if hasPair x (d :: rest) then splitLastSep x (d :: rest)
    else c :: d :: rest
  | l => l

/-- Python's `filename.replace(dotdot, empty)` from `sanitize_filename`
(mail_processor.py line 150): remove non-overlapping occurrences of
`".."` scanning left to right. -/
def stripDots : List Char → List Char
  | [] => []
  | [c] => [c]
  | c :: d :: rest =>
    if c == '.' && d == '.' then stripDots rest
    else c :: stripDots (d :: rest)

/-- The character class of `re.sub` in `sanitize_filename`
(mail_processor.py line 151). -/
def illegalChar (c : Char) : Bool :=
  ['<', '>', ':', '"', '/', '\\', '|', '?', '*'].contains c

/-- `sanitize_filename` (mail_processor.py lines 149-151): first
`filename.replace` removing `".."`, then `re.sub` replacing each
illegal character with an underscore. -/
def sanitize_filename (s : List Char) : List Char :=
  (stripDots s).map (fun c => if illegalChar c then '_' else c)

/-! ## `urllib.parse.unquote` (CPython, defaults `encoding=utf-8`,
`errors=replace`), as called by `decode_email_header`
(mail_processor.py line 188). -/

/-- Value of a hexadecimal digit, both cases (CPython `_hextobyte`). -/
def hexVal (c : Char) : Option Nat :=
  if 48 ≤ c.toNat && c.toNat ≤ 57 then some (c.toNat - 48)
  else if 97 ≤ c.toNat && c.toNat ≤ 102 then some (c.toNat - 87)
  else if 65 ≤ c.toNat && c.toNat ≤ 70 then some (c.toNat - 55)
  else none

/-- CPython `unquote_to_bytes` on an ASCII-only chunk: each `%` followed
by two hex digits becomes one byte, any other `%` stays literal, other
characters become their ASCII byte. -/
def unquoteToBytes : List Char → List Nat
  | '%' :: c1 :: c2 :: rest =>
    match hexVal c1, hexVal c2 with
    | some hi, some lo => (16 * hi + lo) :: unquoteToBytes rest
    | _, _ => 37 :: unquoteToBytes (c1 :: c2 :: rest)
  | '%' :: rest => 37 :: unquoteToBytes rest
  | c :: rest => c.toNat :: unquoteToBytes rest
  | [] => []

/-- The U+FFFD replacement character produced by `errors=replace`. -/
def repl : Char := Char.ofNat 0xFFFD

/-- Is `b` a valid UTF-8 continuation byte. -/
def contOk (b : Nat) : Bool := 0x80 ≤ b && b ≤ 0xBF

/-- Valid second byte of a three-byte sequence with lead `b` (excludes
overlong encodings for `0xE0` and surrogates for `0xED`). -/
def cont3Ok (b b1 : Nat) : Bool :=
  if b = 0xE0 then 0xA0 ≤ b1 && b1 ≤ 0xBF
  else if b = 0xED then 0x80 ≤ b1 && b1 ≤ 0x9F
  else contOk b1

/-- Valid second byte of a four-byte sequence with lead `b` (excludes
overlong encodings for `0xF0` and code points above U+10FFFF for
`0xF4`). -/
def cont4Ok (b b1 : Nat) : Bool :=
  if b = 0xF0 then 0x90 ≤ b1 && b1 ≤ 0xBF
  else if b = 0xF4 then 0x80 ≤ b1 && b1 ≤ 0x8F
  else contOk b1

/-- CPython's `bytes.decode` with `utf-8` and `errors=replace`: decode
valid sequences, and substitute each maximal subpart of an ill-formed
sequence with a single U+FFFD. -/
def utf8DecodeReplace : List Nat → List Char
  | [] => []
  | b :: rest =>
    if b ≤ 0x7F then Char.ofNat b :: utf8DecodeReplace rest
    else if b < 0xC2 then repl :: utf8DecodeReplace rest
    else if b ≤ 0xDF then
      match rest with
      | [] => [repl]
      | b1 :: rest1 =>
        if contOk b1 then
          Char.ofNat ((b - 0xC0) * 64 + (b1 - 0x80)) :: utf8DecodeReplace rest1
        else repl :: utf8DecodeReplace (b1 :: rest1)
    else if b ≤ 0xEF then
      match rest with
      | [] => [repl]
      | b1 :: rest1 =>
        if cont3Ok b b1 then
          match rest1 with
          | [] => [repl]
          | b2 :: rest2 =>
            if contOk b2 then
              Char.ofNat ((b - 0xE0) * 4096 + (b1 - 0x80) * 64 + (b2 - 0x80)) ::
                utf8DecodeReplace rest2
            else repl :: utf8DecodeReplace (b2 :: rest2)
        else repl :: utf8DecodeReplace (b1 :: rest1)
    else if b ≤ 0xF4 then
      match rest with
      | [] => [repl]
      | b1 :: rest1 =>
        if cont4Ok b b1 then
          match rest1 with
          | [] => [repl]
          | b2 :: rest2 =>
            if contOk b2 then
              match rest2 with
              | [] => [repl]
              | b3 :: rest3 =>
                if contOk b3 then
                  Char.ofNat ((b - 0xF0) * 262144 + (b1 - 0x80) * 4096 +
                      (b2 - 0x80) * 64 + (b3 - 0x80)) :: utf8DecodeReplace rest3
                else repl :: utf8DecodeReplace (b3 :: rest3)
            else repl :: utf8DecodeReplace (b2 :: rest2)
        else repl :: utf8DecodeReplace (b1 :: rest1)
    else repl :: utf8DecodeReplace rest

/-- Characters in the range `\x00`-`\x7f`, CPython's `_asciire` class. -/
def isAscii (c : Char) : Bool := c.toNat ≤ 0x7F

/-- Split off the maximal leading ASCII run. -/
def asciiRun : List Char → List Char × List Char
  | [] => ([], [])
  | c :: rest =>
    if isAscii c then
      let p := asciiRun rest
      (c :: p.1, p.2)
    else ([], c :: rest)

/-- Body of CPython `unquote` after its fast path: non-ASCII runs pass
through unchanged; each maximal ASCII run goes through
`unquote_to_bytes` and UTF-8 `replace` decoding.  The fuel argument is
a modelling artifact: each step consumes at least one character, so
fuel equal to the length of the list is always sufficient. -/
def unquoteRunsF : Nat → List Char → List Char
  | 0, l => l
  | _ + 1, [] => []
  | fuel + 1, c :: rest =>
    if isAscii c then
      let p := asciiRun (c :: rest)
      utf8DecodeReplace (unquoteToBytes p.1) ++ unquoteRunsF fuel p.2
    else c :: unquoteRunsF fuel rest

/-- CPython `urllib.parse.unquote(string)` with default encoding and
errors, including its fast path returning the input when it contains no
percent sign. -/
def pyUnquote (l : List Char) : List Char :=
  if l.any (fun c => c == '%') then unquoteRunsF l.length l else l

/-- `decode_email_header` (mail_processor.py lines 154-193) on a string
input: `str(header)` is the identity on strings (the `TypeError` branch
at line 177 is reachable only for non-string objects), then the text
after the last `''` separator is kept (lines 181-183), then
`urllib.parse.unquote` is applied (line 188; `unquote` never raises on
a string, so the `except` branch at lines 190-193 is dead). -/
def decode_email_header (header : List Char) : List Char :=
  pyUnquote (splitLastSep sq header)

/-- Exception-explicit version of `decode_email_header`: the `unquote`
call sits inside `try`, and a hypothetical failure would return the
cleaned string (mail_processor.py lines 186-193).  On string input no
path raises. -/
def decode_email_headerE (header : List Char) : Except (List Char) (List Char) :=
  let cleaned := splitLastSep sq header
  match Except.ok (pyUnquote cleaned) with
  | Except.ok r => Except.ok r
  | Except.error (_ : List Char) => Except.ok cleaned

/-! ## The named lock (database.py).

`acquire_lock` runs inside a transaction with `SELECT ... FOR UPDATE`,
so concurrent calls on the same row are serialized by the database;
the model is therefore a pure step function on the row's state, and
two concurrent calls are the sequential composition of two steps.
`INSERT IGNORE` creates the row unlocked with a null timestamp (the
table defaults, database.py lines 81-85), which is the initial state.
Database connection failures (which make `acquire_lock` return False
without touching the row) are outside the model. -/

/-- One row of `app_locks` for a fixed lock name: `is_locked` and
`locked_at` (database.py lines 81-85).  Timestamps are `Int` seconds. -/
structure LockRow where
  isLocked : Bool
  lockedAt : Option Int
  deriving Repr, DecidableEq

/-- The state of a freshly created lock row (table defaults). -/
def lockRowInit : LockRow := { isLocked := false, lockedAt := none }

/-- `acquire_lock(lock_name, timeout_minutes)` (database.py lines
169-255) acting on the row at time `now`: if the row is locked, a
timed-out or timestamp-less holder is force-released (lines 204-227);
then an unlocked row is taken (`is_locked=TRUE, locked_at=now`, lines
230-238, returning true), otherwise the transaction rolls back leaving
the row unchanged and the call returns false (lines 239-242). -/
def forceReleaseStale (s : LockRow) (timeoutMinutes now : Int) : LockRow :=
  if s.isLocked then
    match s.lockedAt with
    | some t =>
      if now - t > timeoutMinutes * 60 then lockRowInit else s
    | none => lockRowInit
  else s

/-- The take-or-rollback step of `acquire_lock` after the stale sweep
(database.py lines 230-245). -/
def acquire_lock (s : LockRow) (timeoutMinutes now : Int) : LockRow × Bool :=
  if (forceReleaseStale s timeoutMinutes now).isLocked then (s, false)
  else ({ isLocked := true, lockedAt := some now }, true)

/-- `release_lock` (database.py lines 258-276): unconditionally set
`is_locked = FALSE, locked_at = NULL`. -/
def release_lock (_s : LockRow) : LockRow := lockRowInit

/-- Lock-row states reachable from creation through `acquire_lock` and
`release_lock`. -/
inductive ReachableLock : LockRow → Prop
  | init : ReachableLock lockRowInit
  | acquire (s : LockRow) (tmo now : Int) :
      ReachableLock s → ReachableLock (acquire_lock s tmo now).1
  | release (s : LockRow) : ReachableLock s → ReachableLock (release_lock s)

/-! ## The upload pipeline (mail_processor.py). -/

/-- Status column of an `upload_logs` row (database.py line 72,
values written by `log_upload` calls at mail_processor.py lines
110 and 114). -/
inductive UpStatus where
  | ok
  | failed
  deriving Repr, DecidableEq

/-- Observable events of one run, in order: `head` is the HTTP HEAD
existence probe of `webdav_file_exists` (line 123), `put` one
`requests.put` upload attempt (line 107), `dbLog` one row written by
`log_upload` (lines 110/114), `skipWarn` the oversized-attachment
warning (lines 235-238, carrying the decoded name and the size). -/
inductive Ev where
  | head (name : List Char)
  | put (name : List Char)
  | dbLog (name : List Char) (size : Nat) (st : UpStatus)
  | skipWarn (name : List Char) (size : Nat)
  deriving Repr, DecidableEq

/-- Is this event a network request (HEAD probe or PUT upload). -/
def isNetEv : Ev → Bool
  | Ev.head _ => true
  | Ev.put _ => true
  | _ => false

/-- Is this event an upload attempt (`requests.put`). -/
def isPutEv : Ev → Bool
  | Ev.put _ => true
  | _ => false

/-- Number of upload attempts in a trace. -/
def countPuts (evs : List Ev) : Nat := (evs.filter isPutEv).length

/-- The `upload_logs` statuses recorded in a trace, in order. -/
def statusesOf (evs : List Ev) : List UpStatus :=
  evs.filterMap fun e =>
    match e with
    | Ev.dbLog _ _ st => some st
    | _ => none

/-- The `upload` section of the configuration dict built by
`load_config` (mail_processor.py lines 62-65): `retry_count` and
`retry_delay` from the environment, defaulting to 3 and 5. -/
structure UploadConfig where
  retry_count : Nat
  retry_delay : Nat
  deriving Repr, DecidableEq

/-- `webdav_file_exists` (mail_processor.py lines 118-127): one HEAD
request; `store` already answers false on network error (the `except`
branch at lines 125-127 treats errors as absent). -/
def webdav_file_exists (store : List Char → Bool) (filename : List Char) :
    Bool × List Ev :=
  (store filename, [Ev.head filename])

/-- `os.path.splitext` restricted to names with no path separator
(`find_unique_filename` only receives sanitized names): split at the
last dot, unless every character before it is a dot. -/
def splitext (p : List Char) : List Char × List Char :=
  match ((List.range p.length).filter
      (fun i => p.getD i (Char.ofNat 0) == Char.ofNat 46)).getLast? with
  | none => (p, [])
  | some d =>
    if (p.take d).any (fun c => !(c == Char.ofNat 46)) then
      (p.take d, p.drop d)
    else (p, [])

/-- The candidate name `f"{name} ({counter}){extension}"`
(mail_processor.py line 142). -/
def numberedName (name ext : List Char) (counter : Nat) : List Char :=
  name ++ [' ', '('] ++ Nat.toDigits 10 counter ++ [')'] ++ ext

/-- The `while True` probe loop of `find_unique_filename`
(mail_processor.py lines 140-146).  The source loop has no cap; the
fuel argument is a modelling artifact bounding the unrolling, returning
the current candidate when exhausted. -/
def findUniqueFrom (store : List Char → Bool) (name ext : List Char) :
    Nat → Nat → List Char × List Ev
  | counter, 0 => (numberedName name ext counter, [])
  | counter, fuel + 1 =>
    let cand := numberedName name ext counter
    let e := webdav_file_exists store cand
    if e.1 then
      let r := findUniqueFrom store name ext (counter + 1) fuel
      (r.1, e.2 ++ r.2)
    else (cand, e.2)

/-- `find_unique_filename` (mail_processor.py lines 130-146): if the
desired name is free it is returned after a single probe, otherwise
numbered candidates are probed from 1 upward. -/
def find_unique_filename (store : List Char → Bool) (fuel : Nat)
    (original : List Char) : List Char × List Ev :=
  let e := webdav_file_exists store original
  if e.1 then
    let se := splitext original
    let r := findUniqueFrom store se.1 se.2 1 fuel
    (r.1, e.2 ++ r.2)
  else (original, e.2)

/-- `upload_to_webdav` (mail_processor.py lines 91-115): a single
`requests.put` attempt (`putOk` is its outcome, false covering any
`RequestException` or non-2xx status), then exactly one `log_upload`
row.  The configuration argument is the dict the function receives; it
reads only the `webdav` section, never `upload.retry_count` or
`upload.retry_delay`. -/
def upload_to_webdav (_cfg : UploadConfig) (putOk : Bool)
    (remote : List Char) (size : Nat) : Bool × List Ev :=
  if putOk then (true, [Ev.put remote, Ev.dbLog remote size UpStatus.ok])
  else (false, [Ev.put remote, Ev.dbLog remote size UpStatus.failed])

/-- One attachment of a candidate message, with its environment made
explicit: `rawFilename` is the filename header value, `size` the
content size in bytes, `putOk` the outcome the single `requests.put`
for it would have, and `raisesError` whether processing it raises an
unexpected exception (the `except` branch of
`_process_single_message`, mail_processor.py lines 245-248). -/
structure Attachment where
  rawFilename : List Char
  size : Nat
  putOk : Bool
  raisesError : Bool
  deriving Repr, DecidableEq

/-- A candidate message: its ordered attachments. -/
structure Message where
  attachments : List Attachment
  deriving Repr, DecidableEq

/-- The attachment loop of `_process_single_message` (mail_processor.py
lines 207-249): per attachment, decode and sanitize the name, resolve a
unique remote name (network probes happen here, lines 219-220), then
check the size ceiling (lines 234-239, `continue` on oversized), then
upload (lines 241-244, `break` with failure flag on a failed upload);
an unexpected exception sets the failure flag and breaks (lines
245-248, modelled as preempting the attachment's processing). -/
def processAttachments (cfg : UploadConfig) (store : List Char → Bool)
    (fuel maxSize : Nat) : List Attachment → Bool × List Ev
  | [] => (true, [])
  | a :: rest =>
    if a.raisesError then (false, [])
    else
      let decoded := decode_email_header a.rawFilename
      let fr := find_unique_filename store fuel (sanitize_filename decoded)
      if maxSize < a.size then
        let r := processAttachments cfg store fuel maxSize rest
        (r.1, fr.2 ++ Ev.skipWarn decoded a.size :: r.2)
      else
        let u := upload_to_webdav cfg a.putOk fr.1 a.size
        if u.1 then
          let r := processAttachments cfg store fuel maxSize rest
          (r.1, fr.2 ++ u.2 ++ r.2)
        else (false, fr.2 ++ u.2)

/-- `_process_single_message` (mail_processor.py lines 196-249): a
message without attachments reports success immediately (lines
203-205), otherwise the attachment loop decides. -/
def process_single_message (cfg : UploadConfig) (store : List Char → Bool)
    (fuel maxSize : Nat) (m : Message) : Bool × List Ev :=
  match m.attachments with
  | [] => (true, [])
  | a :: rest => processAttachments cfg store fuel maxSize (a :: rest)

/-- Result of the message loop of `process_emails`: the processed
counter, the UIDs deleted from the mailbox, and the event trace. -/
structure RunResult where
  processedCount : Nat
  deleted : List Nat
  events : List Ev
  deriving Repr, DecidableEq

/-- The message loop of `process_emails` (mail_processor.py lines
288-311): stop once the counter reaches `MAX_EMAILS_PER_RUN`; delete a
message and increment the counter exactly when
`_process_single_message` returned true, otherwise leave it in the
mailbox. -/
def processLoop (cfg : UploadConfig) (store : List Char → Bool)
    (fuel maxSize limit : Nat) : List (Nat × Message) → Nat → RunResult
  | [], count => { processedCount := count, deleted := [], events := [] }
  | (uid, m) :: rest, count =>
    if limit ≤ count then { processedCount := count, deleted := [], events := [] }
    else
      let p := process_single_message cfg store fuel maxSize m
      if p.1 then
        let r := processLoop cfg store fuel maxSize limit rest (count + 1)
        { processedCount := r.processedCount, deleted := uid :: r.deleted,
          events := p.2 ++ r.events }
      else
        let r := processLoop cfg store fuel maxSize limit rest count
        { processedCount := r.processedCount, deleted := r.deleted,
          events := p.2 ++ r.events }

/-- The per-attachment success condition the orchestrator's deletion
decision turns out to be equivalent to: no unexpected error, and either
the attachment is over the size ceiling (skipped) or its upload
succeeds. -/
def attOk (maxSize : Nat) (a : Attachment) : Bool :=
  !a.raisesError && (decide (maxSize < a.size) || a.putOk)

/-! ## Helper lemmas about the string scanners. -/

theorem hasPair_append_pair (x : Char) :
    (s t : List Char) → hasPair x (s ++ x :: x :: t) = true
  | [], t => by simp [hasPair]
  | [a], t => by simp [hasPair]
  | a :: b :: s, t => by
    have ih := hasPair_append_pair x (b :: s) t
    simp only [List.cons_append] at ih ⊢
    simp [hasPair] at ih ⊢
    exact Or.inr ih

theorem splitLastSep_of_no_pair (x : Char) :
    (l : List Char) → hasPair x l = false → splitLastSep x l = l
  | [], _ => rfl
  | [c], _ => rfl
  | c :: d :: rest, h => by
    simp only [hasPair, Bool.or_eq_false_iff, Bool.and_eq_false_iff] at h
    simp only [splitLastSep, h.2, if_false]
    rcases h.1 with h1 | h1 <;> simp [h1]

theorem splitLastSep_no_pair (x : Char) :
    (l : List Char) → hasPair x (splitLastSep x l) = false
  | [] => rfl
  | [c] => rfl
  | c :: d :: rest => by
    by_cases h1 : (c == x && d == x) = true
    · simpa [splitLastSep, h1] using splitLastSep_no_pair x rest
    · by_cases h2 : hasPair x (d :: rest) = true
      · simpa [splitLastSep, h1, h2] using splitLastSep_no_pair x (d :: rest)
      · simp only [Bool.not_eq_true] at h1 h2
        simp [splitLastSep, h1, h2, hasPair]

theorem splitLastSep_suffix (x : Char) :
    (l : List Char) → splitLastSep x l <:+ l
  | [] => List.suffix_refl _
  | [c] => List.suffix_refl _
  | c :: d :: rest => by
    by_cases h1 : (c == x && d == x) = true
    · simp only [splitLastSep, h1, if_true]
      exact (splitLastSep_suffix x rest).trans
        ((List.suffix_cons d rest).trans (List.suffix_cons c (d :: rest)))
    · by_cases h2 : hasPair x (d :: rest) = true
      · simp only [splitLastSep, h1, if_false, h2, if_true]
        exact (splitLastSep_suffix x (d :: rest)).trans (List.suffix_cons c (d :: rest))
      · simp only [Bool.not_eq_true] at h1 h2
        simp [splitLastSep, h1, h2]

theorem splitLastSep_append_sep (x : Char) :
    (s : List Char) → (t : List Char) → (∀ c ∈ s, (c == x) = false) →
      splitLastSep x (s ++ x :: x :: t) = splitLastSep x t
  | [], t, _ => by simp [splitLastSep]
  | [a], t, h => by
    have ha : (a == x) = false := h a (List.mem_singleton.mpr rfl)
    have hp : hasPair x (x :: x :: t) = true := by simp [hasPair]
    have base := splitLastSep_append_sep x [] t (by simp)
    simp only [List.singleton_append, List.nil_append] at base ⊢
    simp [splitLastSep, ha, hp, base]
  | a :: b :: s, t, h => by
    have ha : (a == x) = false := h a (by simp)
    have hp : hasPair x ((b :: s) ++ x :: x :: t) = true := hasPair_append_pair x (b :: s) t
    have ih := splitLastSep_append_sep x (b :: s) t (fun c hc => h c (by simp [hc]))
    simp only [List.cons_append] at hp ih ⊢
    simp [splitLastSep, ha, hp, ih]

theorem pyUnquote_no_percent (l : List Char)
    (h : l.any (fun c => c == '%') = false) : pyUnquote l = l := by
  simp [pyUnquote, h]

theorem any_eq_false_of_suffix {l₁ l₂ : List Char} {p : Char → Bool}
    (hs : l₁ <:+ l₂) (h : l₂.any p = false) : l₁.any p = false := by
  rw [Bool.eq_false_iff] at h ⊢
  intro h1
  apply h
  rw [List.any_eq_true] at h1 ⊢
  obtain ⟨c, hc, hpc⟩ := h1
  exact ⟨c, hs.sublist.subset hc, hpc⟩

theorem stripDots_head :
    (l : List Char) → (stripDots l).head? = some '.' → l.head? = some '.'
  | [], h => by simp [stripDots] at h
  | [c], h => by simpa [stripDots] using h
  | c :: d :: rest, h => by
    by_cases h1 : (c == '.' && d == '.') = true
    · have : c = '.' := by
        have := (Bool.and_eq_true _ _).mp h1
        exact eq_of_beq this.1
      simp [this]
    · simp only [Bool.not_eq_true] at h1
      simp [stripDots, h1] at h
      simp [h]

theorem stripDots_no_pair :
    (l : List Char) → hasPair '.' (stripDots l) = false
  | [] => rfl
  | [c] => rfl
  | c :: d :: rest => by
    by_cases h1 : (c == '.' && d == '.') = true
    · simpa [stripDots, h1] using stripDots_no_pair rest
    · have ih := stripDots_no_pair (d :: rest)
      simp only [Bool.not_eq_true] at h1
      simp only [stripDots, h1, if_false]
      cases hs : stripDots (d :: rest) with
      | nil => simp [hasPair]
      | cons e u =>
        rw [hs] at ih
        simp only [hasPair, Bool.or_eq_false_iff]
        refine ⟨?_, ih⟩
        by_cases hc : (c == '.') = true
        · have hcd : c = '.' := eq_of_beq hc
          by_cases he : (e == '.') = true
          · exfalso
            have hhead : (stripDots (d :: rest)).head? = some '.' := by
              rw [hs]; simp [eq_of_beq he]
            have := stripDots_head (d :: rest) hhead
            simp only [List.head?_cons, Option.some.injEq] at this
            rw [hcd, this] at h1
            simp at h1
          · simp only [Bool.not_eq_true] at he
            simp [he]
        · simp only [Bool.not_eq_true] at hc
          simp [hc]

theorem illegalChar_sub (c : Char) :
    illegalChar (if illegalChar c then '_' else c) = false := by
  by_cases h : illegalChar c = true
  · simp only [h, if_true]
    decide
  · simp only [Bool.not_eq_true] at h
    simp [h]

theorem sub_beq_dot (c : Char) :
    ((if illegalChar c then '_' else c) == '.') = (c == '.') := by
  by_cases h : illegalChar c = true
  · have hc : (c == '.') = false := by
      by_contra hne
      have : c = '.' := eq_of_beq (Bool.of_not_eq_false hne)
      rw [this] at h
      simp [illegalChar] at h
    simp only [h, if_true, hc]
    decide
  · simp only [Bool.not_eq_true] at h
    simp [h]

theorem hasPair_map_sub :
    (l : List Char) →
      hasPair '.' (l.map (fun c => if illegalChar c then '_' else c)) = hasPair '.' l
  | [] => rfl
  | [c] => rfl
  | c :: d :: rest => by
    have ih := hasPair_map_sub (d :: rest)
    simp only [List.map_cons] at ih ⊢
    simp only [hasPair, sub_beq_dot, ih]

/-- `acquire_lock` either leaves the row unchanged and returns false, or
locks it with the current timestamp and returns true. -/
theorem acquire_lock_cases (s : LockRow) (tmo now : Int) :
    acquire_lock s tmo now = (s, false) ∨
    acquire_lock s tmo now = ({ isLocked := true, lockedAt := some now }, true) := by
  rw [acquire_lock]
  split
  · exact Or.inl rfl
  · exact Or.inr rfl

/-- C9: for every input string, the output of `sanitize_filename`
contains none of the characters forbidden by the regex class and
contains no occurrence of the substring formed by two dots. -/
theorem c9_sanitize_removes_illegal_and_dotdot (s : List Char) :
    (sanitize_filename s).all (fun c => !illegalChar c) = true ∧
    ¬ List.IsInfix ['.', '.'] (sanitize_filename s) := by
  constructor
  · rw [List.all_eq_true]
    intro c hc
    rw [sanitize_filename, List.mem_map] at hc
    obtain ⟨a, _, rfl⟩ := hc
    simp [illegalChar_sub a]
  · intro hinf
    obtain ⟨u, v, huv⟩ := hinf
    have hp : hasPair '.' (sanitize_filename s) = true := by
      rw [← huv]
      have harr : u ++ ['.', '.'] ++ v = u ++ '.' :: '.' :: v := by simp
      rw [harr]
      exact hasPair_append_pair '.' u v
    have hf : hasPair '.' (sanitize_filename s) = false := by
      rw [sanitize_filename, hasPair_map_sub]
      exact stripDots_no_pair s
    rw [hp] at hf
    exact Bool.true_eq_false.mp hf

/-- C3: the named lock has at most one holder at a time: two successive
`acquire_lock` steps with no intervening release, the second within the
first holder's timeout, never both return true; and every lock-row
state reachable through `acquire_lock` and `release_lock` satisfies
that `locked_at` is null exactly when `is_locked` is false. -/
theorem c3_lock_mutex_and_invariant :
    (∀ (s : LockRow) (tmo n1 n2 : Int), n2 - n1 ≤ tmo * 60 →
      ¬((acquire_lock s tmo n1).2 = true ∧
        (acquire_lock (acquire_lock s tmo n1).1 tmo n2).2 = true)) ∧
    (∀ s : LockRow, ReachableLock s → (s.lockedAt = none ↔ s.isLocked = false)) := by
  constructor
  · rintro s tmo n1 n2 hle ⟨h1, h2⟩
    rcases acquire_lock_cases s tmo n1 with hc | hc
    · rw [hc] at h1
      simp at h1
    · rw [hc] at h2
      have hgt : ¬(n2 - n1 > tmo * 60) := not_lt.mpr hle
      have hrun : acquire_lock { isLocked := true, lockedAt := some n1 } tmo n2 =
          ({ isLocked := true, lockedAt := some n1 }, false) := by
        simp [acquire_lock, forceReleaseStale, hgt]
      simp only [hrun] at h2
      simp at h2
  · intro s hr
    induction hr with
    | init => simp [lockRowInit]
    | acquire s tmo now _ ih =>
      rcases acquire_lock_cases s tmo now with hc | hc <;> rw [hc]
      · exact ih
      · simp
    | release s _ => simp [release_lock, lockRowInit]

/-- Witness for C3 at a concrete instance: from the fresh row, an
acquire at time 0 and another at time 100 with a 30-minute timeout do
not both succeed, and the fresh row satisfies the invariant. -/
theorem c3_witness :
    ¬((acquire_lock lockRowInit 30 0).2 = true ∧
      (acquire_lock (acquire_lock lockRowInit 30 0).1 30 100).2 = true) ∧
    (lockRowInit.lockedAt = none ↔ lockRowInit.isLocked = false) :=
  ⟨c3_lock_mutex_and_invariant.1 lockRowInit 30 0 100 (by decide),
   c3_lock_mutex_and_invariant.2 lockRowInit ReachableLock.init⟩

/-- C4: on a held lock, `acquire_lock` forcibly reclaims (setting
`is_locked` and `locked_at = now`) and returns true when `now -
locked_at` exceeds the timeout or `locked_at` is missing, and otherwise
returns false leaving the row unchanged. -/
theorem c4_stale_lock_reclaim (s : LockRow) (tmo now : Int)
    (hL : s.isLocked = true) :
    ((∀ t, s.lockedAt = some t → now - t > tmo * 60) →
      acquire_lock s tmo now = ({ isLocked := true, lockedAt := some now }, true)) ∧
    (∀ t, s.lockedAt = some t → ¬(now - t > tmo * 60) →
      acquire_lock s tmo now = (s, false)) := by
  constructor
  · intro hstale
    cases ha : s.lockedAt with
    | none => simp [acquire_lock, forceReleaseStale, hL, ha, lockRowInit]
    | some t =>
      have hgt := hstale t ha
      simp [acquire_lock, forceReleaseStale, hL, ha, hgt, lockRowInit]
  · intro t ha hnot
    simp [acquire_lock, forceReleaseStale, hL, ha, hnot]

/-- Witness for C4: a lock held since time 0 with a 30-minute timeout is
reclaimed by an acquire at time 2400 (40 minutes later). -/
theorem c4_witness :
    acquire_lock { isLocked := true, lockedAt := some 0 } 30 2400 =
      ({ isLocked := true, lockedAt := some 2400 }, true) :=
  (c4_stale_lock_reclaim { isLocked := true, lockedAt := some 0 } 30 2400 rfl).1
    (by
      intro t ht
      simp only [Option.some.injEq] at ht
      subst ht
      decide)

/-! ## RFC 2047 encoded words (used only to state the idempotence
claim; the decoder itself never parses them). -/

/-- Split a list at its first question mark. -/
def takeUntilQ : List Char → Option (List Char × List Char)
  | [] => none
  | c :: rest =>
    if c == '?' then some ([], rest)
    else
      match takeUntilQ rest with
      | none => none
      | some p => some (c :: p.1, p.2)

/-- RFC 2047 especials, forbidden in the charset token. -/
def especialChar (c : Char) : Bool :=
  ['(', ')', '<', '>', '@', ',', ';', ':', '"', '/', '[', ']', '?', '.', '='].contains c

/-- A charset-token character: printable ASCII, no space, no especial. -/
def tokenChar (c : Char) : Bool :=
  33 ≤ c.toNat && c.toNat ≤ 126 && !especialChar c

/-- An encoded-text character: printable ASCII other than question mark
and space. -/
def ewTextChar (c : Char) : Bool :=
  33 ≤ c.toNat && c.toNat ≤ 126 && !(c == '?')

/-- RFC 2047 encoded-word shape: an equals sign, a question mark, a
non-empty charset token, a question mark, a `B` or `Q` encoding letter,
a question mark, non-empty encoded text, then the closing question
mark and equals sign. -/
def isEncodedWordB (h : List Char) : Bool :=
  match h with
  | '=' :: '?' :: rest =>
    match takeUntilQ rest with
    | none => false
    | some p1 =>
      match takeUntilQ p1.2 with
      | none => false
      | some p2 =>
        match takeUntilQ p2.2 with
        | none => false
        | some p3 =>
          (p3.2 == ['=']) && !p1.1.isEmpty && p1.1.all tokenChar &&
          ((p2.1 == ['B']) || (p2.1 == ['Q']) || (p2.1 == ['b']) || (p2.1 == ['q'])) &&
          !p3.1.isEmpty && p3.1.all ewTextChar
  | _ => false

/-- C5 counterexample: on the header `x` followed by the two-apostrophe
separator, every decoding step yields the empty string, and the decoder
returns the empty string, not the original raw text as the claim
states. -/
theorem c5_counterexample :
    decode_email_header ['x', sq, sq] = [] ∧ (['x', sq, sq] : List Char) ≠ [] := by
  constructor
  · decide
  · decide

/-- C5 (amended): for every input header string the decoder returns a
display string with no exception escaping (the `TypeError` branch is
reachable only for non-string objects); but when every decoding step
yields an empty string, the result is the empty string, not the
original raw text. -/
theorem c5_decoder_total_and_empty (h : List Char) :
    decode_email_headerE h = Except.ok (decode_email_header h) ∧
    (splitLastSep sq h = [] → decode_email_header h = []) := by
  constructor
  · rfl
  · intro he
    rw [decode_email_header, he]
    rfl

/-- Witness for C5 at the two-apostrophe header. -/
theorem c5_witness :
    decode_email_headerE [sq, sq] = Except.ok (decode_email_header [sq, sq]) ∧
    decode_email_header [sq, sq] = [] :=
  ⟨(c5_decoder_total_and_empty [sq, sq]).1,
   (c5_decoder_total_and_empty [sq, sq]).2 (by decide)⟩

/-- The RFC 2231 header `utf-8`, apostrophe, `en`, apostrophe,
`%41.pdf` used against C6. -/
def c6input : List Char :=
  ("utf-8").data ++ sq :: ("en").data ++ sq :: ("%41.pdf").data

/-- C6 counterexample: on a valid RFC 2231 header with a non-empty
language tag, the correct percent-and-charset decoding is `A.pdf`, but
the decoder returns the whole header percent-decoded, because it only
splits on a double apostrophe. -/
theorem c6_counterexample :
    decode_email_header c6input ≠ ("A.pdf").data ∧
    decode_email_header c6input =
      ("utf-8").data ++ sq :: ("en").data ++ sq :: ("A.pdf").data := by
  constructor
  · decide
  · decide

/-- C6 (amended): the decoder ignores the declared charset and language
entirely: for a header of the form charset, two apostrophes, data
(apostrophe-free charset, data without a double apostrophe), the output
is the UTF-8 best-effort percent-decoding of the data part, whatever
charset was named; headers with a non-empty language tag are not
recognized at all. -/
theorem c6_charset_ignored (cs enc : List Char)
    (hcs : ∀ c ∈ cs, (c == sq) = false) (henc : hasPair sq enc = false) :
    decode_email_header (cs ++ sq :: sq :: enc) = pyUnquote enc := by
  rw [decode_email_header, splitLastSep_append_sep sq cs enc hcs,
      splitLastSep_of_no_pair sq enc henc]

/-- Witness for C6: the claim's own example decodes correctly because
its charset happens to be UTF-8 and its language tag is empty. -/
theorem c6_witness :
    decode_email_header
        (("utf-8").data ++ sq :: sq :: ("%E4%B8%AD%E6%96%87.pdf").data) =
      ("中文.pdf").data := by
  rw [c6_charset_ignored (("utf-8").data) (("%E4%B8%AD%E6%96%87.pdf").data)
      (by decide) (by decide)]
  decide

/-- The encoded word whose Q text contains a double-encoded percent
escape, used against C8. -/
def c8input : List Char := ("=?utf-8?Q?%2541?=").data

/-- C8 counterexample: a valid RFC 2047 encoded word on which decoding
twice differs from decoding once — the first pass turns `%2541` into
`%41`, the second turns that into `A`. -/
theorem c8_counterexample :
    isEncodedWordB c8input = true ∧
    decode_email_header (decode_email_header c8input) ≠
      decode_email_header c8input := by
  constructor
  · decide
  · decide

/-- C8 (amended): decoding is not idempotent in general; it is
idempotent on encoded-word headers containing no percent sign.  (The
first pass may still strip everything up to the last double-apostrophe
separator, but its result contains neither a separator nor a percent
sign, so a second pass changes nothing.) -/
theorem c8_idempotent_no_percent (h : List Char)
    (_hw : isEncodedWordB h = true)
    (hp : h.any (fun c => c == '%') = false) :
    decode_email_header (decode_email_header h) = decode_email_header h := by
  have hp1 : (splitLastSep sq h).any (fun c => c == '%') = false :=
    any_eq_false_of_suffix (splitLastSep_suffix sq h) hp
  have hid : decode_email_header h = splitLastSep sq h := by
    rw [decode_email_header, pyUnquote_no_percent _ hp1]
  rw [hid, decode_email_header,
      splitLastSep_of_no_pair sq _ (splitLastSep_no_pair sq h),
      pyUnquote_no_percent _ hp1]

/-- Witness for C8 on a percent-free encoded word. -/
theorem c8_witness :
    decode_email_header (decode_email_header ("=?utf-8?Q?abc?=").data) =
      decode_email_header ("=?utf-8?Q?abc?=").data :=
  c8_idempotent_no_percent (("=?utf-8?Q?abc?=").data) (by decide) (by decide)

/-! ## Pipeline lemmas and the orchestrator claims. -/

theorem upload_to_webdav_fst (cfg : UploadConfig) (putOk : Bool)
    (remote : List Char) (size : Nat) :
    (upload_to_webdav cfg putOk remote size).1 = putOk := by
  cases putOk <;> rfl

theorem processAttachments_fst (cfg : UploadConfig) (store : List Char → Bool)
    (fuel maxSize : Nat) :
    (l : List Attachment) →
      (processAttachments cfg store fuel maxSize l).1 = l.all (attOk maxSize)
  | [] => rfl
  | a :: rest => by
    have ih := processAttachments_fst cfg store fuel maxSize rest
    by_cases hE : a.raisesError = true
    · simp [processAttachments, hE, attOk]
    · simp only [Bool.not_eq_true] at hE
      by_cases hS : maxSize < a.size
      · simp [processAttachments, hE, hS, attOk, ih]
      · by_cases hP : a.putOk = true
        · simp [processAttachments, hE, hS, hP, attOk, upload_to_webdav, ih]
        · simp only [Bool.not_eq_true] at hP
          simp [processAttachments, hE, hS, hP, attOk, upload_to_webdav]

theorem processAttachments_stops (cfg : UploadConfig) (store : List Char → Bool)
    (fuel maxSize : Nat) :
    (pre : List Attachment) → (bad : Attachment) → (post : List Attachment) →
      pre.all (attOk maxSize) = true → attOk maxSize bad = false →
      processAttachments cfg store fuel maxSize (pre ++ bad :: post) =
        processAttachments cfg store fuel maxSize (pre ++ [bad])
  | [], bad, post, _, hbad => by
    by_cases hE : bad.raisesError = true
    · simp [processAttachments, hE]
    · simp only [Bool.not_eq_true] at hE
      rw [attOk, hE] at hbad
      simp only [Bool.not_false, Bool.true_and, Bool.or_eq_false_iff,
        decide_eq_false_iff_not] at hbad
      simp [processAttachments, hE, hbad.1, hbad.2, upload_to_webdav]
  | a :: pre, bad, post, hall, hbad => by
    simp only [List.all_cons, Bool.and_eq_true] at hall
    have ih := processAttachments_stops cfg store fuel maxSize pre bad post hall.2 hbad
    have ha := hall.1
    rw [attOk, Bool.and_eq_true] at ha
    have hE : a.raisesError = false := by
      rcases ha.1 with h
      simp only [Bool.not_eq_true'] at h
      exact h
    by_cases hS : maxSize < a.size
    · simp [processAttachments, hE, hS, List.cons_append, ih]
    · have hP : a.putOk = true := by
        rcases Bool.or_eq_true_iff.mp ha.2 with h | h
        · exact absurd (of_decide_eq_true h) hS
        · exact h
      simp [processAttachments, hE, hS, hP, upload_to_webdav, List.cons_append, ih]

theorem process_single_message_fst (cfg : UploadConfig) (store : List Char → Bool)
    (fuel maxSize : Nat) (m : Message) :
    (process_single_message cfg store fuel maxSize m).1 =
      m.attachments.all (attOk maxSize) := by
  cases hm : m.attachments with
  | nil => simp [process_single_message, hm]
  | cons a rest =>
    simp only [process_single_message, hm]
    exact processAttachments_fst cfg store fuel maxSize (a :: rest)

theorem findUniqueFrom_no_put (store : List Char → Bool) (name ext : List Char) :
    (counter fuel : Nat) →
      ∀ e ∈ (findUniqueFrom store name ext counter fuel).2, isPutEv e = false
  | _, 0 => by
    intro e he
    simp [findUniqueFrom] at he
  | counter, fuel + 1 => by
    intro e he
    by_cases hex : store (numberedName name ext counter) = true
    · simp [findUniqueFrom, webdav_file_exists, hex] at he
      rcases he with he | he
      · rw [he]; rfl
      · exact findUniqueFrom_no_put store name ext (counter + 1) fuel e he
    · simp only [Bool.not_eq_true] at hex
      simp [findUniqueFrom, webdav_file_exists, hex] at he
      rw [he]; rfl

theorem find_unique_filename_no_put (store : List Char → Bool) (fuel : Nat)
    (original : List Char) :
    ∀ e ∈ (find_unique_filename store fuel original).2, isPutEv e = false := by
  intro e he
  by_cases hex : store original = true
  · simp [find_unique_filename, webdav_file_exists, hex] at he
    rcases he with he | he
    · rw [he]; rfl
    · exact findUniqueFrom_no_put store (splitext original).1 (splitext original).2
        1 fuel e he
  · simp only [Bool.not_eq_true] at hex
    simp [find_unique_filename, webdav_file_exists, hex] at he
    rw [he]; rfl

/-- The configuration of the claims' scenarios: the `load_config`
defaults `retry_count = 3`, `retry_delay = 5`. -/
def demoCfg : UploadConfig := { retry_count := 3, retry_delay := 5 }

/-- A remote store with no pre-existing files (every HEAD probe answers
absent). -/
def emptyStore : List Char → Bool := fun _ => false

/-- First attachment of the C1 scenario: in-size, upload succeeds. -/
def attOkA : Attachment :=
  { rawFilename := ("a.pdf").data, size := 5, putOk := true, raisesError := false }

/-- Second attachment of the C1 scenario: in-size, upload fails. -/
def attFailB : Attachment :=
  { rawFilename := ("b.pdf").data, size := 5, putOk := false, raisesError := false }

/-- The C1 message: two attachments, first upload succeeds, second
fails. -/
def twoAttMessage : Message := { attachments := [attOkA, attFailB] }

/-- C1: the orchestrator deletes a candidate message exactly when every
attachment is fine (no unexpected error, and either skipped as
oversized or uploaded successfully); processing a message stops at the
first failing attachment, leaving the rest untouched; and on the
two-attachment scenario (first upload succeeds, second fails) the
message is not deleted and exactly the two log rows `Success`,
`Failed` are recorded. -/
theorem c1_delete_iff_uploads (cfg : UploadConfig) (store : List Char → Bool)
    (fuel maxSize : Nat) :
    (∀ m : Message, (process_single_message cfg store fuel maxSize m).1 =
      m.attachments.all (attOk maxSize)) ∧
    (∀ (pre : List Attachment) (bad : Attachment) (post : List Attachment),
      pre.all (attOk maxSize) = true → attOk maxSize bad = false →
      processAttachments cfg store fuel maxSize (pre ++ bad :: post) =
        processAttachments cfg store fuel maxSize (pre ++ [bad])) ∧
    (∀ (limit uid : Nat) (m : Message) (rest : List (Nat × Message)) (count : Nat),
      count < limit →
      (processLoop cfg store fuel maxSize limit ((uid, m) :: rest) count).deleted =
        (if m.attachments.all (attOk maxSize) = true then
          uid :: (processLoop cfg store fuel maxSize limit rest (count + 1)).deleted
        else (processLoop cfg store fuel maxSize limit rest count).deleted)) ∧
    ((processLoop demoCfg emptyStore 5 10 10 [(7, twoAttMessage)] 0).deleted = [] ∧
      statusesOf (processLoop demoCfg emptyStore 5 10 10 [(7, twoAttMessage)] 0).events =
        [UpStatus.ok, UpStatus.failed]) := by
  refine ⟨process_single_message_fst cfg store fuel maxSize, ?_, ?_, ?_, ?_⟩
  · exact processAttachments_stops cfg store fuel maxSize
  · intro limit uid m rest count hcl
    have hle : ¬ limit ≤ count := not_le.mpr hcl
    by_cases hall : m.attachments.all (attOk maxSize) = true
    · simp [processLoop, hle, process_single_message_fst, hall]
    · simp only [Bool.not_eq_true] at hall
      simp [processLoop, hle, process_single_message_fst, hall]
  · decide
  · decide

/-- Witness for C1: early stop instantiated on a concrete message whose
second attachment fails with a third one pending, and the loop deletion
equation at count 0 with limit 10. -/
theorem c1_witness :
    processAttachments demoCfg emptyStore 5 10 ([attOkA] ++ attFailB :: [attOkA]) =
      processAttachments demoCfg emptyStore 5 10 ([attOkA] ++ [attFailB]) ∧
    (processLoop demoCfg emptyStore 5 10 10 [(7, twoAttMessage)] 0).deleted =
      (if twoAttMessage.attachments.all (attOk 10) = true then
        7 :: (processLoop demoCfg emptyStore 5 10 10 [] 1).deleted
      else (processLoop demoCfg emptyStore 5 10 10 [] 0).deleted) :=
  ⟨(c1_delete_iff_uploads demoCfg emptyStore 5 10).2.1 [attOkA] attFailB [attOkA]
      (by decide) (by decide),
   (c1_delete_iff_uploads demoCfg emptyStore 5 10).2.2.1 10 7 twoAttMessage [] 0
      (by decide)⟩

/-- C2 counterexample: with the configured `retry_count = 3` and the
single attempt failing, `upload_to_webdav` performs exactly one
`requests.put`, not the four attempts the claim requires — the retry
settings loaded by `load_config` are never consumed anywhere. -/
theorem c2_counterexample :
    countPuts (upload_to_webdav demoCfg false (("r.pdf").data) 9).2 = 1 ∧
    countPuts (upload_to_webdav demoCfg false (("r.pdf").data) 9).2 ≠ 4 := by
  constructor
  · decide
  · decide

/-- C2 (amended): every upload makes exactly one attempt, independent
of the configured `retry_count` and `retry_delay`; the outcome is
logged exactly once (`Failed` on the failing attempt), and a message
whose attachment upload fails is reported failed, hence preserved. -/
theorem c2_single_attempt (cfg cfg2 : UploadConfig) (putOk : Bool)
    (remote : List Char) (size : Nat) :
    upload_to_webdav cfg putOk remote size = upload_to_webdav cfg2 putOk remote size ∧
    countPuts (upload_to_webdav cfg putOk remote size).2 = 1 ∧
    statusesOf (upload_to_webdav cfg putOk remote size).2 =
      [if putOk then UpStatus.ok else UpStatus.failed] ∧
    (∀ (store : List Char → Bool) (fuel maxSize : Nat) (a : Attachment)
        (rest : List Attachment), a.raisesError = false → a.size ≤ maxSize →
      a.putOk = false →
      (processAttachments cfg store fuel maxSize (a :: rest)).1 = false) := by
  refine ⟨?_, ?_, ?_, ?_⟩
  · cases putOk <;> rfl
  · cases putOk <;> rfl
  · cases putOk <;> rfl
  · intro store fuel maxSize a rest hE hS hP
    rw [processAttachments_fst]
    simp [attOk, hE, hP, Nat.not_lt.mpr hS]

/-- Witness for C2: the upload result is independent of the retry
settings, and a concrete message with one failing attachment is
reported failed. -/
theorem c2_witness :
    upload_to_webdav demoCfg false (("r.pdf").data) 9 =
      upload_to_webdav { retry_count := 0, retry_delay := 0 } false (("r.pdf").data) 9 ∧
    (processAttachments demoCfg emptyStore 5 10 [attFailB]).1 = false :=
  ⟨(c2_single_attempt demoCfg { retry_count := 0, retry_delay := 0 } false
      (("r.pdf").data) 9).1,
   (c2_single_attempt demoCfg demoCfg false (("r.pdf").data) 9).2.2.2
      emptyStore 5 10 attFailB [] rfl (by decide) rfl⟩

/-- The oversized attachment of the C7 scenario: declared size 11
against a ceiling of 10. -/
def bigAtt : Attachment :=
  { rawFilename := ("big.pdf").data, size := 11, putOk := true, raisesError := false }

/-- C7 counterexample: the claim says an oversized attachment is
rejected before any network attempt, but processing a message whose
only attachment is oversized performs a network request — the HEAD
existence probe of `find_unique_filename` runs before the size check
(mail_processor.py line 220 precedes lines 234-239). -/
theorem c7_counterexample :
    (processAttachments demoCfg emptyStore 5 10 [bigAtt]).2.any isNetEv = true ∧
    (processAttachments demoCfg emptyStore 5 10 [bigAtt]).2 =
      [Ev.head (("big.pdf").data), Ev.skipWarn (("big.pdf").data) 11] := by
  constructor
  · decide
  · decide

/-- C7 (amended): an oversized attachment is rejected before any upload
attempt (its name-resolution HEAD probes do run first), a skipped
outcome is logged, the skip does not affect the message's success, and
processing continues with the remaining attachments. -/
theorem c7_oversized_skipped (cfg : UploadConfig) (store : List Char → Bool)
    (fuel maxSize : Nat) (a : Attachment) (rest : List Attachment)
    (hE : a.raisesError = false) (hS : maxSize < a.size) :
    processAttachments cfg store fuel maxSize (a :: rest) =
      ((processAttachments cfg store fuel maxSize rest).1,
       (find_unique_filename store fuel
           (sanitize_filename (decode_email_header a.rawFilename))).2 ++
         Ev.skipWarn (decode_email_header a.rawFilename) a.size ::
           (processAttachments cfg store fuel maxSize rest).2) ∧
    (∀ e ∈ (find_unique_filename store fuel
        (sanitize_filename (decode_email_header a.rawFilename))).2,
      isPutEv e = false) := by
  constructor
  · simp [processAttachments, hE, hS]
  · exact find_unique_filename_no_put store fuel _

/-- Witness for C7 on the oversized attachment followed by a good
one. -/
theorem c7_witness :
    processAttachments demoCfg emptyStore 5 10 [bigAtt, attOkA] =
      ((processAttachments demoCfg emptyStore 5 10 [attOkA]).1,
       (find_unique_filename emptyStore 5
           (sanitize_filename (decode_email_header bigAtt.rawFilename))).2 ++
         Ev.skipWarn (decode_email_header bigAtt.rawFilename) bigAtt.size ::
           (processAttachments demoCfg emptyStore 5 10 [attOkA]).2) :=
  (c7_oversized_skipped demoCfg emptyStore 5 10 bigAtt [attOkA] rfl (by decide)).1

/-- C10: a candidate message with no attachments reports success
immediately with an empty trace — no upload, no log row — and the
orchestrator deletes it and increments the processed counter exactly
as for a fully successful message. -/
theorem c10_empty_attachments (cfg : UploadConfig) (store : List Char → Bool)
    (fuel maxSize limit uid : Nat) (m : Message) (rest : List (Nat × Message))
    (count : Nat) (hA : m.attachments = []) (hC : count < limit) :
    process_single_message cfg store fuel maxSize m = (true, []) ∧
    processLoop cfg store fuel maxSize limit ((uid, m) :: rest) count =
      { processedCount :=
          (processLoop cfg store fuel maxSize limit rest (count + 1)).processedCount,
        deleted := uid :: (processLoop cfg store fuel maxSize limit rest (count + 1)).deleted,
        events := (processLoop cfg store fuel maxSize limit rest (count + 1)).events } := by
  have h1 : process_single_message cfg store fuel maxSize m = (true, []) := by
    simp [process_single_message, hA]
  refine ⟨h1, ?_⟩
  simp [processLoop, not_le.mpr hC, h1]

/-- Witness for C10: a run over a single empty message deletes it,
counts one processed message and records nothing. -/
theorem c10_witness :
    process_single_message demoCfg emptyStore 5 10 { attachments := [] } = (true, []) ∧
    processLoop demoCfg emptyStore 5 10 10 [(3, { attachments := [] })] 0 =
      { processedCount := 1, deleted := [3], events := [] } := by
  have h := c10_empty_attachments demoCfg emptyStore 5 10 10 3 { attachments := [] }
    [] 0 rfl (by decide)
  exact ⟨h.1, by rw [h.2]; decide⟩

end EmailBackup
